import Mathlib

/-!
Verification of the audit-tracker state reconciliation core.

The development shallowly embeds the TypeScript core (`StateManager`, the
tree-provider filter predicate, and the command handlers that drive them)
as pure Lean functions over an explicit state record.  JavaScript's loose
runtime values are modelled by `JVal`; JavaScript numbers that survive the
code's `Number.isFinite` checks are modelled by integers, with separate
constructors for the non-finite values the checks reject.
-/

namespace AuditTracker

/-! ## JavaScript runtime value model -/

/-- A JavaScript number: a finite (integer-valued) number, `NaN`, or an
infinity. -/
inductive JNum where
  | fin (v : Int)
  | nan
  | inf
  | neginf
deriving DecidableEq, Repr

/-- A JavaScript value as it can appear in a parsed state document:
`null`, booleans, numbers, strings, arrays and objects (association lists
in insertion order).  A missing object property is `Option.none` at the
access site. -/
inductive JVal where
  | null
  | bool (b : Bool)
  | num (n : JNum)
  | str (s : String)
  | arr (elems : List JVal)
  | obj (fields : List (String × JVal))

/-- Property access `v.k`: defined (first binding) on objects, undefined
everywhere else (JSON arrays carry no string-keyed properties). -/
def getField (v : JVal) (k : String) : Option JVal :=
  match v with
  | .obj kvs => kvs.lookup k
  | _ => none

/-- JavaScript truthiness of a value (`Boolean(v)`); a missing property
(`undefined`) is falsy. -/
def truthy : Option JVal → Bool
  | none => false
  | some .null => false
  | some (.bool b) => b
  | some (.num (.fin v)) => v != 0
  | some (.num .nan) => false
  | some (.num .inf) => true
  | some (.num .neginf) => true
  | some (.str s) => s != ""
  | some (.arr _) => true
  | some (.obj _) => true

/-- Models `typeof v === "string"` as a partial projection. -/
def asString : Option JVal → Option String
  | some (.str s) => some s
  | _ => none

/-- Models `typeof v === "number"` as a partial projection (keeps `NaN` and the
infinities, which pass the `typeof` check). -/
def asNumber : Option JVal → Option JNum
  | some (.num n) => some n
  | _ => none

/-- Models `typeof v === "number" && Number.isFinite(v)` as a partial
projection. -/
def asFiniteNumber : Option JVal → Option Int
  | some (.num (.fin v)) => some v
  | _ => none

/-- Models `Array.isArray(v)` as a partial projection to the element list. -/
def asArray : Option JVal → Option (List JVal)
  | some (.arr xs) => some xs
  | _ => none

/-- Models `Boolean(v) && typeof v === "object"`: `v` is a non-null object or an
array. -/
def isObjLike : JVal → Bool
  | .obj _ => true
  | .arr _ => true
  | _ => false

/-- Models `Object.entries(v)` for the values that reach it in the code: an
object yields its bindings in order, an array yields index-keyed entries,
anything else yields nothing. -/
def objEntries : JVal → List (String × JVal)
  | .obj kvs => kvs
  | .arr xs => xs.enum.map (fun p => (toString p.1, p.2))
  | _ => []

/-- Core of `[...new Set(xs)]`: walk the list keeping the set of elements
already seen; an element already in the set is skipped (a `Set` keeps the
first insertion position). -/
def jsUniqueAux [DecidableEq α] : List α → List α → List α
  | _, [] => []
  | seen, x :: xs =>
    if x ∈ seen then jsUniqueAux seen xs
    else x :: jsUniqueAux (x :: seen) xs

/-- Models `[...new Set(xs)]`: removes duplicates keeping the first occurrence of
each element, in order. -/
def jsUnique [DecidableEq α] (xs : List α) : List α :=
  jsUniqueAux [] xs

/-! ## Path helpers (`path` module, with the POSIX separator) -/

/-- Models `path.sep`. -/
def pathSep : String := "/"

/-- Character-list core of `String.prototype.startsWith`. -/
def charsStartWith : List Char → List Char → Bool
  | _, [] => true
  | [], _ :: _ => false
  | c :: cs, p :: ps => c == p && charsStartWith cs ps

/-- Models `s.startsWith(pre)`. -/
def strStartsWith (s pre : String) : Bool :=
  charsStartWith s.data pre.data

/-- Model of `path.basename`: the final path component, ignoring trailing
separators. -/
def basename (p : String) : String :=
  match ((p.splitOn pathSep).filter (fun s => s ≠ "")).getLast? with
  | some s => s
  | none => ""

/-! ## Typed state model (`src/models/types.ts`) -/

/-- Tracking state for a single function (`FunctionState`). -/
structure FunctionState where
  id : String
  name : String
  filePath : String
  startLine : Int
  endLine : Int
  readCount : Int
  isReviewed : Bool
  isEntrypoint : Bool
  isAdmin : Bool
  isHidden : Bool
deriving DecidableEq, Repr

/-- Models `FunctionStatus`. -/
inductive FunctionStatus where
  | unread
  | read
  | reviewed
deriving DecidableEq, Repr

/-- Models `FunctionTag`. -/
inductive FunctionTag where
  | entrypoint
  | admin
deriving DecidableEq, Repr

/-- Models `FunctionFilters`. -/
structure FunctionFilters where
  statuses : List FunctionStatus
  tags : List FunctionTag
deriving DecidableEq, Repr

/-- Models `DEFAULT_FUNCTION_FILTERS`. -/
def DEFAULT_FUNCTION_FILTERS : FunctionFilters :=
  { statuses := [.unread, .read, .reviewed], tags := [] }

/-- Models `ScopedFile`. -/
structure ScopedFile where
  filePath : String
  relativePath : String
  functions : List FunctionState
deriving DecidableEq, Repr

/-- The type tag of a `DailyProgressAction`. -/
inductive ActionType where
  | functionRead
  | functionReviewed
  | fileRead
  | fileReviewed
deriving DecidableEq, Repr

/-- Models `DailyProgressAction`; the optional fields are absent (`none`) exactly
when the TypeScript properties are `undefined`. -/
structure DailyProgressAction where
  type : ActionType
  filePath : String
  functionName : Option String
  lineCount : Option Int
deriving DecidableEq, Repr

/-- Models `DailyProgress`. -/
structure DailyProgress where
  date : String
  functionsRead : Int
  functionsReviewed : Int
  linesRead : Int
  linesReviewed : Int
  filesRead : Int
  filesReviewed : Int
  actions : List DailyProgressAction
deriving DecidableEq, Repr

/-- Models `AuditTrackerState`.  `files` is an association list in insertion
order, mirroring a JavaScript `Record` with string-typed keys; `version`
and `lastModified` are only `typeof`-checked by the code, so they keep the
full `JNum` range. -/
structure AuditTrackerState where
  version : JNum
  scopePaths : List String
  excludedPaths : List String
  functionFilters : FunctionFilters
  files : List (String × ScopedFile)
  progressHistory : List DailyProgress
  lastModified : JNum
deriving DecidableEq, Repr

/-- Models `STATE_VERSION`. -/
def STATE_VERSION : Int := 1

/-! ## Load-time normalization (`StateManager.normalizeState`) -/

/-- Models `isFunctionStatus` (the string guard inside `normalizeState`). -/
def isFunctionStatusStr (s : String) : Bool :=
  s == "unread" || s == "read" || s == "reviewed"

/-- Models `isFunctionTag`. -/
def isFunctionTagStr (s : String) : Bool :=
  s == "entrypoint" || s == "admin"

/-- Valid status strings to the enumeration. -/
def parseStatus : String → Option FunctionStatus
  | "unread" => some .unread
  | "read" => some .read
  | "reviewed" => some .reviewed
  | _ => none

/-- Enumeration back to the wire string. -/
def statusStr : FunctionStatus → String
  | .unread => "unread"
  | .read => "read"
  | .reviewed => "reviewed"

/-- Valid tag strings to the enumeration. -/
def parseTag : String → Option FunctionTag
  | "entrypoint" => some .entrypoint
  | "admin" => some .admin
  | _ => none

/-- Enumeration back to the wire string. -/
def tagStr : FunctionTag → String
  | .entrypoint => "entrypoint"
  | .admin => "admin"

/-- Valid action-type strings to the enumeration (the
`a.type === "functionRead" || ...` filter). -/
def parseActionType : String → Option ActionType
  | "functionRead" => some .functionRead
  | "functionReviewed" => some .functionReviewed
  | "fileRead" => some .fileRead
  | "fileReviewed" => some .fileReviewed
  | _ => none

/-- Enumeration back to the wire string. -/
def actionTypeStr : ActionType → String
  | .functionRead => "functionRead"
  | .functionReviewed => "functionReviewed"
  | .fileRead => "fileRead"
  | .fileReviewed => "fileReviewed"

/-- The string elements of a value that should be an array:
`Array.isArray(v) ? v.filter(x => typeof x === "string") : []`. -/
def rawStrings (v : Option JVal) : List String :=
  ((asArray v).getD []).filterMap (fun x => asString (some x))

/-- Property access through a possibly-absent object
(`v && v.k`, where a falsy or non-object `v` yields `undefined`). -/
def getFieldOpt (v : Option JVal) (k : String) : Option JVal :=
  match v with
  | some fv => getField fv k
  | none => none

/-- The `scopePaths` / `excludedPaths` normalization:
`unique(Array.isArray(v) ? v.filter(p => typeof p === "string" && p.length > 0) : [])`. -/
def normPaths (v : Option JVal) : List String :=
  jsUnique ((rawStrings v).filter (fun s => 0 < s.length))

/-- The status half of the `functionFilters` normalization: keep only
known status strings, deduplicate, and read them as the enumeration. -/
def normStatuses (v : Option JVal) : List FunctionStatus :=
  (jsUnique ((rawStrings (getFieldOpt v "statuses")).filter
    isFunctionStatusStr)).filterMap parseStatus

/-- The tag half of the `functionFilters` normalization. -/
def normTags (v : Option JVal) : List FunctionTag :=
  (jsUnique ((rawStrings (getFieldOpt v "tags")).filter
    isFunctionTagStr)).filterMap parseTag

/-- The `functionFilters` normalization; an empty resulting status set is
replaced by the default statuses. -/
def normFilters (v : Option JVal) : FunctionFilters :=
  { statuses :=
      if (normStatuses v).length > 0 then normStatuses v
      else DEFAULT_FUNCTION_FILTERS.statuses,
    tags := normTags v }

/-- Normalization of one raw function entry of a file (the `.map(fn => ...)`
body inside `normalizeState`). -/
def normFn (filePath : String) (fn : JVal) : FunctionState :=
  let startLine := (asFiniteNumber (getField fn "startLine")).getD 0
  let endLine := (asFiniteNumber (getField fn "endLine")).getD startLine
  let name := (asString (getField fn "name")).getD "unknown"
  let id := match asString (getField fn "id") with
    | some s => if 0 < s.length then s else filePath ++ "#" ++ name ++ "#" ++ toString startLine
    | none => filePath ++ "#" ++ name ++ "#" ++ toString startLine
  { id := id
    name := name
    filePath := filePath
    startLine := startLine
    endLine := max endLine startLine
    readCount :=
      match asNumber (getField fn "readCount") with
      | some (.fin v) => if v > 0 then 1 else 0
      | some .inf => 1
      | some _ => 0
      | none => 0
    isReviewed := truthy (getField fn "isReviewed")
    isEntrypoint := truthy (getField fn "isEntrypoint")
    isAdmin := truthy (getField fn "isAdmin")
    isHidden := truthy (getField fn "isHidden") }

/-- Normalization of one raw file entry. -/
def normFile (filePath : String) (file : JVal) : ScopedFile :=
  let relativePath := match asString (getField file "relativePath") with
    | some s => if 0 < s.length then s else basename filePath
    | none => basename filePath
  let functions := match asArray (getField file "functions") with
    | some xs => (xs.filter isObjLike).map (normFn filePath)
    | none => []
  { filePath := filePath, relativePath := relativePath, functions := functions }

/-- Assignment `m[k] = v` on an insertion-ordered record: overwrites in
place when the key exists, appends otherwise. -/
def upsert (kvs : List (String × α)) (k : String) (v : α) : List (String × α) :=
  match kvs with
  | [] => [(k, v)]
  | (k', v') :: rest => if k' = k then (k, v) :: rest else (k', v') :: upsert rest k v

/-- The `files` normalization: walk `Object.entries`, skip non-object
values, normalize each file and assign it under its key. -/
def normFiles (v : Option JVal) : List (String × ScopedFile) :=
  match v with
  | some fv =>
    if isObjLike fv then
      (objEntries fv).foldl
        (fun acc kv =>
          if isObjLike kv.2 then upsert acc kv.1 (normFile kv.1 kv.2) else acc)
        []
    else []
  | none => []

/-- Normalization of one raw progress action (already filtered to a known
`type`). -/
def normAction (ty : ActionType) (a : JVal) : DailyProgressAction :=
  { type := ty
    filePath := (asString (getField a "filePath")).getD "unknown"
    functionName := asString (getField a "functionName")
    lineCount := asFiniteNumber (getField a "lineCount") }

/-- The action pipeline of one progress entry: filter to objects, filter
to known `type` strings, then map. -/
def normActions (v : Option JVal) : List DailyProgressAction :=
  match asArray v with
  | some xs =>
    (xs.filter isObjLike).filterMap (fun a =>
      match asString (getField a "type") with
      | some s => (parseActionType s).map (fun ty => normAction ty a)
      | none => none)
  | none => []

/-- Normalization of one raw progress entry. -/
def normEntry (entry : JVal) : DailyProgress :=
  { date := (asString (getField entry "date")).getD "unknown"
    functionsRead := (asFiniteNumber (getField entry "functionsRead")).getD 0
    functionsReviewed := (asFiniteNumber (getField entry "functionsReviewed")).getD 0
    linesRead := (asFiniteNumber (getField entry "linesRead")).getD 0
    linesReviewed := (asFiniteNumber (getField entry "linesReviewed")).getD 0
    filesRead := (asFiniteNumber (getField entry "filesRead")).getD 0
    filesReviewed := (asFiniteNumber (getField entry "filesReviewed")).getD 0
    actions := normActions (getField entry "actions") }

/-- The `progressHistory` normalization. -/
def normHistory (v : Option JVal) : List DailyProgress :=
  match asArray v with
  | some xs => (xs.filter isObjLike).map normEntry
  | none => []

/-- Models `StateManager.normalizeState`, with the impure `Date.now()` passed in
as `now`. -/
def normalizeState (now : Int) (state : JVal) : AuditTrackerState :=
  { version := (asNumber (getField state "version")).getD (.fin STATE_VERSION)
    scopePaths := normPaths (getField state "scopePaths")
    excludedPaths := normPaths (getField state "excludedPaths")
    functionFilters := normFilters (getField state "functionFilters")
    files := normFiles (getField state "files")
    progressHistory := normHistory (getField state "progressHistory")
    lastModified := (asNumber (getField state "lastModified")).getD (.fin now) }

/-! ## Re-injection of a typed state as a JavaScript value

Feeding a normalized state back into `normalizeState` (or serializing it
and re-parsing it) presents it as the following `JVal`; an `Option` field
that is `none` is an absent (`undefined`) property. -/

/-- One function record as a JavaScript object. -/
def encodeFn (f : FunctionState) : JVal :=
  .obj [("id", .str f.id),
        ("name", .str f.name),
        ("filePath", .str f.filePath),
        ("startLine", .num (.fin f.startLine)),
        ("endLine", .num (.fin f.endLine)),
        ("readCount", .num (.fin f.readCount)),
        ("isReviewed", .bool f.isReviewed),
        ("isEntrypoint", .bool f.isEntrypoint),
        ("isAdmin", .bool f.isAdmin),
        ("isHidden", .bool f.isHidden)]

/-- One file record as a JavaScript object. -/
def encodeFile (f : ScopedFile) : JVal :=
  .obj [("filePath", .str f.filePath),
        ("relativePath", .str f.relativePath),
        ("functions", .arr (f.functions.map encodeFn))]

/-- One progress action as a JavaScript object (optional properties
omitted when absent). -/
def encodeAction (a : DailyProgressAction) : JVal :=
  .obj ([("type", .str (actionTypeStr a.type)),
         ("filePath", .str a.filePath)] ++
        (match a.functionName with
         | some s => [("functionName", JVal.str s)]
         | none => []) ++
        (match a.lineCount with
         | some v => [("lineCount", JVal.num (.fin v))]
         | none => []))

/-- One progress entry as a JavaScript object. -/
def encodeEntry (e : DailyProgress) : JVal :=
  .obj [("date", .str e.date),
        ("functionsRead", .num (.fin e.functionsRead)),
        ("functionsReviewed", .num (.fin e.functionsReviewed)),
        ("linesRead", .num (.fin e.linesRead)),
        ("linesReviewed", .num (.fin e.linesReviewed)),
        ("filesRead", .num (.fin e.filesRead)),
        ("filesReviewed", .num (.fin e.filesReviewed)),
        ("actions", .arr (e.actions.map encodeAction))]

/-- The whole state as a JavaScript object. -/
def encodeState (st : AuditTrackerState) : JVal :=
  .obj [("version", .num st.version),
        ("scopePaths", .arr (st.scopePaths.map .str)),
        ("excludedPaths", .arr (st.excludedPaths.map .str)),
        ("functionFilters", .obj
          [("statuses", .arr (st.functionFilters.statuses.map (fun s => .str (statusStr s)))),
           ("tags", .arr (st.functionFilters.tags.map (fun t => .str (tagStr t))))]),
        ("files", .obj (st.files.map (fun kv => (kv.1, encodeFile kv.2)))),
        ("progressHistory", .arr (st.progressHistory.map encodeEntry)),
        ("lastModified", .num st.lastModified)]

/-! ## StateManager operations (scope set, reconciler, flag mutators,
progress tracker) -/

/-- Models `StateManager.isPathExcluded`. -/
def isPathExcluded (st : AuditTrackerState) (filePath : String) : Bool :=
  st.excludedPaths.contains filePath

/-- Models `StateManager.isPathInScope`. -/
def isPathInScope (st : AuditTrackerState) (filePath : String) : Bool :=
  if isPathExcluded st filePath then false
  else st.scopePaths.any (fun scopePath =>
    filePath == scopePath || strStartsWith filePath (scopePath ++ pathSep))

/-- Models `StateManager.addScopePath`. -/
def addScopePath (st : AuditTrackerState) (filePath : String) : AuditTrackerState :=
  if st.scopePaths.contains filePath then st
  else { st with scopePaths := st.scopePaths ++ [filePath] }

/-- Models `StateManager.addExcludedPath`. -/
def addExcludedPath (st : AuditTrackerState) (filePath : String) : AuditTrackerState :=
  if st.excludedPaths.contains filePath then st
  else { st with excludedPaths := st.excludedPaths ++ [filePath] }

/-- Models `StateManager.removeExcludedPath`. -/
def removeExcludedPath (st : AuditTrackerState) (filePath : String) : AuditTrackerState :=
  { st with excludedPaths := st.excludedPaths.filter (fun p => p ≠ filePath) }

/-- Models `StateManager.removeScopePath`: drop the entry, then drop every
tracked file that no longer satisfies `isPathInScope` (the predicate does
not read `files`, so the in-place deletions amount to a filter). -/
def removeScopePath (st : AuditTrackerState) (filePath : String) : AuditTrackerState :=
  let st1 := { st with scopePaths := st.scopePaths.filter (fun p => p ≠ filePath) }
  { st1 with files := st1.files.filter (fun kv => isPathInScope st1 kv.1) }

/-- Models `StateManager.getFile`. -/
def getFile (st : AuditTrackerState) (filePath : String) : Option ScopedFile :=
  st.files.lookup filePath

/-- Models `StateManager.removeFile`. -/
def removeFile (st : AuditTrackerState) (filePath : String) : AuditTrackerState :=
  { st with files := st.files.filter (fun kv => kv.1 ≠ filePath) }

/-- A `Map` built by `map.set(key fn, fn)` over `fns` in order, then read
with `map.get(k)`: the last record whose key equals `k`. -/
def mapGetLast (key : FunctionState → String) (fns : List FunctionState)
    (k : String) : Option FunctionState :=
  fns.foldl (fun acc f => if key f = k then some f else acc) none

/-- The merge body of `StateManager.setFileFunctions` for one incoming
candidate: exact id match first, then name match; on a match carry the
five user flags over and keep the candidate's other fields. -/
def mergeOne (existing : List FunctionState) (fn : FunctionState) : FunctionState :=
  let byId := mapGetLast FunctionState.id existing fn.id
  let matched := match byId with
    | some e => some e
    | none => mapGetLast FunctionState.name existing fn.name
  match matched with
  | some e =>
    { fn with
      readCount := e.readCount
      isReviewed := e.isReviewed
      isEntrypoint := e.isEntrypoint
      isAdmin := e.isAdmin
      isHidden := e.isHidden }
  | none => fn

/-- Models `StateManager.setFileFunctions`. -/
def setFileFunctions (st : AuditTrackerState) (filePath relativePath : String)
    (functions : List FunctionState) : AuditTrackerState :=
  match getFile st filePath with
  | some existingFile =>
    { st with files := (upsert st.files filePath
        (ScopedFile.mk filePath relativePath
          (functions.map (mergeOne existingFile.functions)))) }
  | none =>
    { st with files := (upsert st.files filePath
        (ScopedFile.mk filePath relativePath functions)) }

/-- The shared traversal of the five flag mutators applied to one file's
function list: update the first record with the given id, report whether
one was found. -/
def updateFnInList (fns : List FunctionState) (functionId : String)
    (upd : FunctionState → FunctionState) : List FunctionState × Bool :=
  match fns with
  | [] => ([], false)
  | f :: rest =>
    if f.id = functionId then (upd f :: rest, true)
    else
      let r := updateFnInList rest functionId upd
      (f :: r.1, r.2)

/-- The shared traversal of the five flag mutators over the files map:
walk files in order, update the first function with the given id, and
stop (`return`). -/
def updateFirstFn (files : List (String × ScopedFile)) (functionId : String)
    (upd : FunctionState → FunctionState) : List (String × ScopedFile) :=
  match files with
  | [] => []
  | (k, sf) :: rest =>
    let r := updateFnInList sf.functions functionId upd
    if r.2 then (k, { sf with functions := r.1 }) :: rest
    else (k, sf) :: updateFirstFn rest functionId upd

/-- The field update of `StateManager.setRead`. -/
def setReadUpd (read : Bool) (f : FunctionState) : FunctionState :=
  { f with readCount := if read then 1 else 0 }

/-- The field update of `StateManager.setReviewed`. -/
def setReviewedUpd (reviewed : Bool) (f : FunctionState) : FunctionState :=
  { f with isReviewed := reviewed }

/-- The field update of `StateManager.setEntrypoint`. -/
def setEntrypointUpd (isEntrypoint : Bool) (f : FunctionState) : FunctionState :=
  { f with isEntrypoint := isEntrypoint }

/-- The field update of `StateManager.setAdmin`. -/
def setAdminUpd (isAdmin : Bool) (f : FunctionState) : FunctionState :=
  { f with isAdmin := isAdmin }

/-- The field update of `StateManager.setHidden`. -/
def setHiddenUpd (isHidden : Bool) (f : FunctionState) : FunctionState :=
  { f with isHidden := isHidden }

/-- Models `StateManager.setRead`. -/
def setRead (st : AuditTrackerState) (functionId : String) (read : Bool) : AuditTrackerState :=
  { st with files := updateFirstFn st.files functionId (setReadUpd read) }

/-- Models `StateManager.setReviewed`. -/
def setReviewed (st : AuditTrackerState) (functionId : String) (reviewed : Bool) : AuditTrackerState :=
  { st with files := updateFirstFn st.files functionId (setReviewedUpd reviewed) }

/-- Models `StateManager.setEntrypoint`. -/
def setEntrypoint (st : AuditTrackerState) (functionId : String) (isEntrypoint : Bool) : AuditTrackerState :=
  { st with files := updateFirstFn st.files functionId (setEntrypointUpd isEntrypoint) }

/-- Models `StateManager.setAdmin`. -/
def setAdmin (st : AuditTrackerState) (functionId : String) (isAdmin : Bool) : AuditTrackerState :=
  { st with files := updateFirstFn st.files functionId (setAdminUpd isAdmin) }

/-- Models `StateManager.setHidden`. -/
def setHidden (st : AuditTrackerState) (functionId : String) (isHidden : Bool) : AuditTrackerState :=
  { st with files := updateFirstFn st.files functionId (setHiddenUpd isHidden) }

/-- A fresh `DailyProgress` entry for `date` (the object literal inside
`getOrCreateTodayProgress`). -/
def emptyProgress (date : String) : DailyProgress :=
  { date := date, functionsRead := 0, functionsReviewed := 0, linesRead := 0,
    linesReviewed := 0, filesRead := 0, filesReviewed := 0, actions := [] }

/-- Models `getOrCreateTodayProgress` followed by a mutation of the returned
entry: update the first entry dated `today`, or append a freshly created
(and then mutated) entry at the end. -/
def getOrCreateUpdate (hist : List DailyProgress) (today : String)
    (upd : DailyProgress → DailyProgress) : List DailyProgress :=
  match hist with
  | [] => [upd (emptyProgress today)]
  | p :: rest =>
    if p.date = today then upd p :: rest
    else p :: getOrCreateUpdate rest today upd

/-- Models `StateManager.recordFunctionRead`. -/
def recordFunctionRead (st : AuditTrackerState) (today filePath functionName : String)
    (lineCount : Int) : AuditTrackerState :=
  { st with progressHistory := getOrCreateUpdate st.progressHistory today (fun p =>
      { p with
        functionsRead := p.functionsRead + 1
        linesRead := p.linesRead + lineCount
        actions := p.actions ++
          [{ type := .functionRead, filePath := filePath,
             functionName := some functionName, lineCount := some lineCount }] }) }

/-- Models `StateManager.recordFunctionReviewed`. -/
def recordFunctionReviewed (st : AuditTrackerState) (today filePath functionName : String)
    (lineCount : Int) : AuditTrackerState :=
  { st with progressHistory := getOrCreateUpdate st.progressHistory today (fun p =>
      { p with
        functionsReviewed := p.functionsReviewed + 1
        linesReviewed := p.linesReviewed + lineCount
        actions := p.actions ++
          [{ type := .functionReviewed, filePath := filePath,
             functionName := some functionName, lineCount := some lineCount }] }) }

/-- Models `StateManager.recordFileRead`. -/
def recordFileRead (st : AuditTrackerState) (today filePath : String) : AuditTrackerState :=
  { st with progressHistory := getOrCreateUpdate st.progressHistory today (fun p =>
      { p with
        filesRead := p.filesRead + 1
        actions := p.actions ++
          [{ type := .fileRead, filePath := filePath,
             functionName := none, lineCount := none }] }) }

/-- Models `StateManager.recordFileReviewed`. -/
def recordFileReviewed (st : AuditTrackerState) (today filePath : String) : AuditTrackerState :=
  { st with progressHistory := getOrCreateUpdate st.progressHistory today (fun p =>
      { p with
        filesReviewed := p.filesReviewed + 1
        actions := p.actions ++
          [{ type := .fileReviewed, filePath := filePath,
             functionName := none, lineCount := none }] }) }

/-! ## Tree provider filter predicate
(`AuditTreeProvider.matchesFunctionFilters`) -/

/-- The status computation inside `matchesFunctionFilters`. -/
def functionStatusOf (f : FunctionState) : FunctionStatus :=
  if f.isReviewed then .reviewed
  else if f.readCount > 0 then .read
  else .unread

/-- Models `AuditTreeProvider.matchesFunctionFilters`. -/
def matchesFunctionFilters (func : FunctionState) (filters : FunctionFilters) : Bool :=
  let status := functionStatusOf func
  let statusMatches :=
    filters.statuses.length == 0 || filters.statuses.contains status
  let tagMatches :=
    filters.tags.length == 0 ||
    (filters.tags.contains .entrypoint && func.isEntrypoint) ||
    (filters.tags.contains .admin && func.isAdmin)
  statusMatches && tagMatches

/-! ## Command handlers (extension entry file)

The handlers run over the in-memory state; the impure calendar date is
passed in as `today`, and the tree item's `functionState` snapshot as
`func`.  UI refresh and persistence do not touch the tracked state. -/

/-- Models `file?.relativePath || path.basename(p)` (the empty string is
falsy). -/
def relativePathOr (file : Option ScopedFile) (p : String) : String :=
  match file with
  | some f => if f.relativePath = "" then basename p else f.relativePath
  | none => basename p

/-- The `auditTracker.markRead` command handler. -/
def markReadCmd (st : AuditTrackerState) (today : String)
    (func : FunctionState) : AuditTrackerState :=
  let wasAlreadyRead := func.readCount > 0
  let st1 := setRead st func.id true
  if !wasAlreadyRead then
    let file := getFile st1 func.filePath
    let relativePath := relativePathOr file func.filePath
    let lineCount := func.endLine - func.startLine + 1
    let st2 := recordFunctionRead st1 today relativePath func.name lineCount
    match file with
    | some f =>
      let visibleFunctions := f.functions.filter (fun g => !g.isHidden)
      let allRead :=
        visibleFunctions.length > 0 && visibleFunctions.all (fun g => g.readCount > 0)
      if allRead then recordFileRead st2 today relativePath else st2
    | none => st2
  else st1

/-- The `auditTracker.markReviewed` command handler; when the guard
`func.readCount === 0` fires the handler returns before any mutation. -/
def markReviewedCmd (st : AuditTrackerState) (today : String)
    (func : FunctionState) : AuditTrackerState :=
  if func.readCount = 0 then st
  else
    let wasAlreadyReviewed := func.isReviewed
    let st1 := setReviewed st func.id true
    if !wasAlreadyReviewed then
      let file := getFile st1 func.filePath
      let relativePath := relativePathOr file func.filePath
      let lineCount := func.endLine - func.startLine + 1
      let st2 := recordFunctionReviewed st1 today relativePath func.name lineCount
      match file with
      | some f =>
        let visibleFunctions := f.functions.filter (fun g => !g.isHidden)
        let allReviewed :=
          visibleFunctions.length > 0 && visibleFunctions.all (fun g => g.isReviewed)
        if allReviewed then recordFileReviewed st2 today relativePath else st2
      | none => st2
    else st1

/-- The file branch of the `auditTracker.removeFromScope` command: drop an
exactly matching scope-path entry, add the file to the excluded paths, and
remove its tracked record. -/
def removeFromScopeFileCmd (st : AuditTrackerState) (filePath : String) : AuditTrackerState :=
  let st1 := if st.scopePaths.contains filePath then removeScopePath st filePath else st
  let st2 := addExcludedPath st1 filePath
  removeFile st2 filePath

/-- A concrete state for the C8 witness: `/repo/src/a.sol` is both a
scope entry of its own and a descendant of the scope folder
`/repo/src`. -/
def cmdWitnessState : AuditTrackerState :=
  AuditTrackerState.mk (.fin 1) ["/repo/src", "/repo/src/a.sol"] []
    DEFAULT_FUNCTION_FILTERS
    [("/repo/src/a.sol", ScopedFile.mk "/repo/src/a.sol" "a.sol" [])]
    [] (.fin 0)

/-- The shape shared by the five flag mutators when a function with the
given id is tracked: every non-`files` component of the state is
unchanged; the files list splits around the first file containing a
matching function; inside it the function list splits around the first
matching record, which alone is replaced by `upd` applied to it, every
earlier file and record containing no match. -/
def FrameUpdate (st st' : AuditTrackerState) (functionId : String)
    (upd : FunctionState → FunctionState) : Prop :=
  st'.version = st.version ∧
  st'.scopePaths = st.scopePaths ∧
  st'.excludedPaths = st.excludedPaths ∧
  st'.functionFilters = st.functionFilters ∧
  st'.progressHistory = st.progressHistory ∧
  st'.lastModified = st.lastModified ∧
  ∃ preF k sf postF fpre f fpost,
    st.files = preF ++ (k, sf) :: postF ∧
    (∀ kv ∈ preF, ∀ g ∈ kv.2.functions, g.id ≠ functionId) ∧
    sf.functions = fpre ++ f :: fpost ∧
    (∀ g ∈ fpre, g.id ≠ functionId) ∧
    f.id = functionId ∧
    st'.files = preF ++ (k, { sf with functions := fpre ++ upd f :: fpost }) :: postF

/-- A concrete two-file state for the C10 witness. -/
def mutatorWitnessState : AuditTrackerState :=
  AuditTrackerState.mk (.fin 1) ["/repo"] [] DEFAULT_FUNCTION_FILTERS
    [("/repo/a.sol", ScopedFile.mk "/repo/a.sol" "a.sol"
      [FunctionState.mk "/repo/a.sol#f#1" "f" "/repo/a.sol" 1 2 0 false false false false]),
     ("/repo/b.sol", ScopedFile.mk "/repo/b.sol" "b.sol"
      [FunctionState.mk "/repo/b.sol#g#4" "g" "/repo/b.sol" 4 9 0 false false false false])]
    [] (.fin 0)

/-- The invariant `normalizeState` establishes for every function record:
the record names its file, the span is ordered, the id is nonempty, and
`readCount` is the 0/1 encoding. -/
def NormalFn (fp : String) (f : FunctionState) : Prop :=
  f.filePath = fp ∧ f.startLine ≤ f.endLine ∧ 0 < f.id.length ∧
    (f.readCount = 0 ∨ f.readCount = 1)

/-- The invariant `normalizeState` establishes for every file record; the
`relativePath` clause records that an empty stored value can only arise
when the basename fallback itself is empty. -/
def NormalFile (fp : String) (sf : ScopedFile) : Prop :=
  sf.filePath = fp ∧ (sf.relativePath = "" → basename fp = "") ∧
    ∀ f ∈ sf.functions, NormalFn fp f

/-- The fixed-point shape of a normalized status selection: non-empty,
and its wire strings are `Set`-deduplicated. -/
def NormalStatuses (l : List FunctionStatus) : Prop :=
  l ≠ [] ∧ jsUnique (l.map statusStr) = l.map statusStr

/-- The fixed-point shape of a normalized tag selection. -/
def NormalTags (l : List FunctionTag) : Prop :=
  jsUnique (l.map tagStr) = l.map tagStr

/-- Everything `normalizeState` guarantees about its output: path lists
are `Set`-fixed lists of non-empty strings, the filters have the
fixed-point shape, file keys are duplicate-free and every stored record is
normal. -/
def NormalizedState (st : AuditTrackerState) : Prop :=
  jsUnique st.scopePaths = st.scopePaths ∧
  (∀ s ∈ st.scopePaths, 0 < s.length) ∧
  jsUnique st.excludedPaths = st.excludedPaths ∧
  (∀ s ∈ st.excludedPaths, 0 < s.length) ∧
  NormalStatuses st.functionFilters.statuses ∧
  NormalTags st.functionFilters.tags ∧
  (st.files.map Prod.fst).Nodup ∧
  (∀ kv ∈ st.files, NormalFile kv.1 kv.2)

/-- A persisted document whose only function record carries the finite
negative line numbers `startLine = -5`, `endLine = -3`. -/
def negativeLinesRaw : JVal :=
  .obj [("files", .obj [("/repo/a.sol", .obj
    [("relativePath", .str "a.sol"),
     ("functions", .arr [.obj [("id", .str "x"), ("name", .str "f"),
       ("startLine", .num (.fin (-5))), ("endLine", .num (.fin (-3)))]])])])]

/-! ## Scope algebra (claim C2) -/

theorem charsStartWith_iff (s pre : List Char) :
    charsStartWith s pre = true ↔ ∃ t, s = pre ++ t := by
  induction pre generalizing s with
  | nil => simp [charsStartWith]
  | cons p ps ih =>
    cases s with
    | nil => simp [charsStartWith]
    | cons c cs =>
      rw [show charsStartWith (c :: cs) (p :: ps) = (c == p && charsStartWith cs ps) from rfl,
        Bool.and_eq_true, beq_iff_eq, ih]
      constructor
      · rintro ⟨rfl, t, rfl⟩
        exact ⟨t, rfl⟩
      · rintro ⟨t, h⟩
        rw [List.cons_append] at h
        injection h with h1 h2
        exact ⟨h1, t, h2⟩

theorem strStartsWith_iff (s pre : String) :
    strStartsWith s pre = true ↔ ∃ t, s = pre ++ t := by
  unfold strStartsWith
  rw [charsStartWith_iff]
  constructor
  · rintro ⟨t, ht⟩
    refine ⟨String.mk t, ?_⟩
    apply String.ext
    simpa using ht
  · rintro ⟨t, rfl⟩
    exact ⟨t.data, by simp⟩

/-- C2: for every path `p` and every state (so for every `scopePaths` and
`excludedPaths` list), `isPathInScope p` returns `true` iff `p` is not a
member of `excludedPaths` and some entry `s` of `scopePaths` satisfies
`p = s` or `p` extends `s` followed by the path separator; in particular
an excluded path is never in scope. -/
theorem isPathInScope_iff (st : AuditTrackerState) (p : String) :
    isPathInScope st p = true ↔
      p ∉ st.excludedPaths ∧
        ∃ s ∈ st.scopePaths, p = s ∨ ∃ rest, p = s ++ pathSep ++ rest := by
  unfold isPathInScope isPathExcluded
  by_cases hex : p ∈ st.excludedPaths
  · simp [List.elem_iff, hex]
  · rw [if_neg (by simpa [List.elem_iff] using hex)]
    simp only [List.any_eq_true, Bool.or_eq_true, beq_iff_eq, strStartsWith_iff]
    constructor
    · rintro ⟨s, hs, h⟩
      exact ⟨hex, s, hs, h⟩
    · rintro ⟨-, s, hs, h⟩
      exact ⟨s, hs, h⟩

/-! ## Filter predicate algebra (claim C4) -/

/-- C4: for every function record and every filter setting, the filter
predicate returns `true` iff (the statuses list is empty or contains the
record's status — `reviewed` if `isReviewed`, else `read` if
`readCount > 0`, else `unread`) and (the tags list is empty, or
`entrypoint` is selected and the record is an entrypoint, or `admin` is
selected and the record is admin); the status group and the tag group
combine with AND. -/
theorem matchesFunctionFilters_iff (func : FunctionState) (filters : FunctionFilters) :
    matchesFunctionFilters func filters = true ↔
      (filters.statuses = [] ∨ functionStatusOf func ∈ filters.statuses) ∧
        (filters.tags = [] ∨
          (FunctionTag.entrypoint ∈ filters.tags ∧ func.isEntrypoint = true) ∨
          (FunctionTag.admin ∈ filters.tags ∧ func.isAdmin = true)) := by
  unfold matchesFunctionFilters
  simp [List.elem_iff, List.length_eq_zero, Bool.or_eq_true,
    Bool.and_eq_true, or_assoc]

/-! ## Reconciler (claim C1) -/

theorem lookup_upsert (kvs : List (String × α)) (k : String) (v : α) :
    (upsert kvs k v).lookup k = some v := by
  induction kvs with
  | nil => simp [upsert, List.lookup]
  | cons kv rest ih =>
    obtain ⟨k', v'⟩ := kv
    by_cases h : k' = k
    · simp [upsert, h, List.lookup]
    · simp only [upsert, if_neg h, List.lookup]
      have hbe : (k == k') = false := by simpa using Ne.symm h
      rw [hbe]
      exact ih

/-- C1: for every stored state, every previously tracked file and every
fresh candidate list handed to `setFileFunctions` for that file, a
candidate with no exact id match among the previous records whose name
matches some previous record receives that record's `readCount`,
`isReviewed`, `isEntrypoint`, `isAdmin` and `isHidden`, while its `id`,
`name`, `filePath`, `startLine` and `endLine` are the candidate's own. -/
theorem setFileFunctions_name_merge
    (st : AuditTrackerState) (fp rel : String) (fns : List FunctionState)
    (exFile : ScopedFile) (i : Nat) (hi : i < fns.length) (prev : FunctionState)
    (hfile : getFile st fp = some exFile)
    (hid : mapGetLast FunctionState.id exFile.functions fns[i].id = none)
    (hname : mapGetLast FunctionState.name exFile.functions fns[i].name = some prev) :
    ∃ newFile, getFile (setFileFunctions st fp rel fns) fp = some newFile ∧
      newFile.functions[i]? = some
        { fns[i] with
          readCount := prev.readCount
          isReviewed := prev.isReviewed
          isEntrypoint := prev.isEntrypoint
          isAdmin := prev.isAdmin
          isHidden := prev.isHidden } := by
  refine ⟨ScopedFile.mk fp rel (fns.map (mergeOne exFile.functions)), ?_, ?_⟩
  · unfold setFileFunctions
    rw [hfile]
    exact lookup_upsert st.files fp _
  · show (fns.map (mergeOne exFile.functions))[i]? = _
    rw [List.getElem?_map, List.getElem?_eq_getElem hi]
    show some (mergeOne exFile.functions fns[i]) = _
    unfold mergeOne
    rw [hid, hname]

/-- Witness for C1, instantiating the spec's example: previous record
`{name: "f", start: 10, isReviewed: true}`, candidate
`{name: "f", start: 40}` in the same file, no id match; the merged output
carries `isReviewed = true` at start line 40. -/
theorem setFileFunctions_name_merge_witness :
    ∃ newFile,
      getFile (setFileFunctions
        (AuditTrackerState.mk (.fin 1) ["/repo"] [] DEFAULT_FUNCTION_FILTERS
          [("/repo/a.sol", ScopedFile.mk "/repo/a.sol" "a.sol"
            [FunctionState.mk "/repo/a.sol#f#10" "f" "/repo/a.sol" 10 12 1 true false false false])]
          [] (.fin 0))
        "/repo/a.sol" "a.sol"
        [FunctionState.mk "/repo/a.sol#f#40" "f" "/repo/a.sol" 40 42 0 false false false false])
        "/repo/a.sol" = some newFile ∧
      newFile.functions[0]? = some
        (FunctionState.mk "/repo/a.sol#f#40" "f" "/repo/a.sol" 40 42 1 true false false false) := by
  have h := setFileFunctions_name_merge
    (AuditTrackerState.mk (.fin 1) ["/repo"] [] DEFAULT_FUNCTION_FILTERS
      [("/repo/a.sol", ScopedFile.mk "/repo/a.sol" "a.sol"
        [FunctionState.mk "/repo/a.sol#f#10" "f" "/repo/a.sol" 10 12 1 true false false false])]
      [] (.fin 0))
    "/repo/a.sol" "a.sol"
    [FunctionState.mk "/repo/a.sol#f#40" "f" "/repo/a.sol" 40 42 0 false false false false]
    (ScopedFile.mk "/repo/a.sol" "a.sol"
      [FunctionState.mk "/repo/a.sol#f#10" "f" "/repo/a.sol" 10 12 1 true false false false])
    0 (by decide)
    (FunctionState.mk "/repo/a.sol#f#10" "f" "/repo/a.sol" 10 12 1 true false false false)
    (by decide) (by decide) (by decide)
  exact h

/-! ## Read-before-review precondition (claim C6) -/

/-- C6: the mark-reviewed command on a function snapshot whose `readCount`
is `0` is rejected by the guard: the whole state is returned unchanged, so
no flag is set, no progress counter moves and no action is recorded. -/
theorem markReviewedCmd_unread_rejected
    (st : AuditTrackerState) (today : String) (func : FunctionState)
    (h : func.readCount = 0) :
    markReviewedCmd st today func = st := by
  unfold markReviewedCmd
  rw [if_pos h]

/-- Witness for C6 at a concrete state holding one unread function. -/
theorem markReviewedCmd_unread_rejected_witness :
    markReviewedCmd
      (AuditTrackerState.mk (.fin 1) ["/repo"] [] DEFAULT_FUNCTION_FILTERS
        [("/repo/a.sol", ScopedFile.mk "/repo/a.sol" "a.sol"
          [FunctionState.mk "/repo/a.sol#f#10" "f" "/repo/a.sol" 10 12 0 false false false false])]
        [] (.fin 0))
      "2026-10-12"
      (FunctionState.mk "/repo/a.sol#f#10" "f" "/repo/a.sol" 10 12 0 false false false false) =
    AuditTrackerState.mk (.fin 1) ["/repo"] [] DEFAULT_FUNCTION_FILTERS
      [("/repo/a.sol", ScopedFile.mk "/repo/a.sol" "a.sol"
        [FunctionState.mk "/repo/a.sol#f#10" "f" "/repo/a.sol" 10 12 0 false false false false])]
      [] (.fin 0) :=
  markReviewedCmd_unread_rejected _ _ _ (by decide)

/-! ## Scope-path removal drops out-of-scope files (claim C7) -/

/-- C7: after `removeScopePath p`, the scope list no longer contains `p`,
every file remaining in the files map satisfies `isPathInScope`, and every
previously tracked file that still satisfies the new scope predicate was
kept (so exactly the files failing `isPathInScope` were dropped). -/
theorem removeScopePath_spec (st : AuditTrackerState) (p : String) :
    p ∉ (removeScopePath st p).scopePaths ∧
      (∀ kv ∈ (removeScopePath st p).files,
        isPathInScope (removeScopePath st p) kv.1 = true) ∧
      (∀ kv ∈ st.files,
        isPathInScope (removeScopePath st p) kv.1 = true →
          kv ∈ (removeScopePath st p).files) := by
  have hs : (removeScopePath st p).scopePaths =
      st.scopePaths.filter (fun q => q ≠ p) := rfl
  have hf : (removeScopePath st p).files =
      st.files.filter (fun kv => isPathInScope (removeScopePath st p) kv.1) := rfl
  refine ⟨?_, ?_, ?_⟩
  · intro hmem
    rw [hs] at hmem
    have := List.of_mem_filter hmem
    simp at this
  · intro kv hkv
    rw [hf] at hkv
    exact (List.mem_filter.mp hkv).2
  · intro kv hkv hscope
    rw [hf]
    exact List.mem_filter.mpr ⟨hkv, hscope⟩

/-- Witness for C7: removing the only scope folder drops the tracked file
under it. -/
theorem removeScopePath_spec_witness :
    ("/repo/src" : String) ∉
      (removeScopePath
        (AuditTrackerState.mk (.fin 1) ["/repo/src"] [] DEFAULT_FUNCTION_FILTERS
          [("/repo/src/a.sol", ScopedFile.mk "/repo/src/a.sol" "a.sol" [])]
          [] (.fin 0)) "/repo/src").scopePaths ∧
    isPathInScope
      (removeScopePath
        (AuditTrackerState.mk (.fin 1) ["/repo/src", "/repo/lib"] [] DEFAULT_FUNCTION_FILTERS
          [("/repo/lib/b.sol", ScopedFile.mk "/repo/lib/b.sol" "b.sol" [])]
          [] (.fin 0)) "/repo/src")
      "/repo/lib/b.sol" = true :=
  ⟨(removeScopePath_spec
      (AuditTrackerState.mk (.fin 1) ["/repo/src"] [] DEFAULT_FUNCTION_FILTERS
        [("/repo/src/a.sol", ScopedFile.mk "/repo/src/a.sol" "a.sol" [])]
        [] (.fin 0)) "/repo/src").1,
   (removeScopePath_spec
      (AuditTrackerState.mk (.fin 1) ["/repo/src", "/repo/lib"] [] DEFAULT_FUNCTION_FILTERS
        [("/repo/lib/b.sol", ScopedFile.mk "/repo/lib/b.sol" "b.sol" [])]
        [] (.fin 0)) "/repo/src").2.1
     ("/repo/lib/b.sol", ScopedFile.mk "/repo/lib/b.sol" "b.sol" []) (by decide)⟩

/-! ## Excluding a file clears an exact scope entry (claim C8) -/

/-- C8: after the remove-from-scope command on a file path `p` (the
operation that adds `p` to the excluded paths), `scopePaths` has no entry
equal to `p`, `p` is excluded, and every other scope entry — in
particular every proper ancestor folder of `p` — survives. -/
theorem addExcludedPath_scopePaths (st : AuditTrackerState) (p : String) :
    (addExcludedPath st p).scopePaths = st.scopePaths := by
  unfold addExcludedPath
  split <;> rfl

theorem addExcludedPath_mem (st : AuditTrackerState) (p : String) :
    p ∈ (addExcludedPath st p).excludedPaths := by
  unfold addExcludedPath
  split
  · next h => exact List.elem_iff.mp h
  · next h => simp

theorem removeFromScopeFileCmd_spec (st : AuditTrackerState) (p : String) :
    p ∉ (removeFromScopeFileCmd st p).scopePaths ∧
      p ∈ (removeFromScopeFileCmd st p).excludedPaths ∧
      (∀ s ∈ st.scopePaths, s ≠ p → s ∈ (removeFromScopeFileCmd st p).scopePaths) := by
  have hrf : ∀ st' : AuditTrackerState, (removeFile st' p).scopePaths = st'.scopePaths :=
    fun _ => rfl
  have hrfe : ∀ st' : AuditTrackerState, (removeFile st' p).excludedPaths = st'.excludedPaths :=
    fun _ => rfl
  have hrs : ∀ st' : AuditTrackerState, (removeScopePath st' p).scopePaths =
      st'.scopePaths.filter (fun q => q ≠ p) := fun _ => rfl
  have hrse : ∀ st' : AuditTrackerState, (removeScopePath st' p).excludedPaths =
      st'.excludedPaths := fun _ => rfl
  unfold removeFromScopeFileCmd
  by_cases hc : st.scopePaths.contains p
  · rw [if_pos hc]
    refine ⟨?_, ?_, ?_⟩
    · rw [hrf, addExcludedPath_scopePaths, hrs]
      intro hmem
      have := List.of_mem_filter hmem
      simp at this
    · rw [hrfe]
      exact addExcludedPath_mem _ p
    · intro s hs hne
      rw [hrf, addExcludedPath_scopePaths, hrs]
      exact List.mem_filter_of_mem hs (by simpa using hne)
  · rw [if_neg hc]
    have hnotmem : p ∉ st.scopePaths := fun h => hc (List.elem_iff.mpr h)
    refine ⟨?_, ?_, ?_⟩
    · rw [hrf, addExcludedPath_scopePaths]
      exact hnotmem
    · rw [hrfe]
      exact addExcludedPath_mem _ p
    · intro s hs hne
      rw [hrf, addExcludedPath_scopePaths]
      exact hs

/-- Witness for C8: excluding `/repo/src/a.sol`, which is both a scope
entry itself and a descendant of the scope folder `/repo/src`, clears the
exact entry and keeps the ancestor folder. -/
theorem removeFromScopeFileCmd_spec_witness :
    ("/repo/src/a.sol" : String) ∉
      (removeFromScopeFileCmd cmdWitnessState "/repo/src/a.sol").scopePaths ∧
    ("/repo/src/a.sol" : String) ∈
      (removeFromScopeFileCmd cmdWitnessState "/repo/src/a.sol").excludedPaths ∧
    ("/repo/src" : String) ∈
      (removeFromScopeFileCmd cmdWitnessState "/repo/src/a.sol").scopePaths :=
  ⟨(removeFromScopeFileCmd_spec cmdWitnessState "/repo/src/a.sol").1,
   (removeFromScopeFileCmd_spec cmdWitnessState "/repo/src/a.sol").2.1,
   (removeFromScopeFileCmd_spec cmdWitnessState "/repo/src/a.sol").2.2
     "/repo/src" (by decide) (by decide)⟩

/-! ## File-completion check on mark-read (claim C9) -/

theorem getOrCreateUpdate_mem (hist : List DailyProgress) (today : String)
    (f : DailyProgress → DailyProgress) :
    ∃ q, q.date = today ∧ f q ∈ getOrCreateUpdate hist today f := by
  induction hist with
  | nil => exact ⟨emptyProgress today, rfl, by simp [getOrCreateUpdate]⟩
  | cons p rest ih =>
    by_cases h : p.date = today
    · exact ⟨p, h, by simp [getOrCreateUpdate, if_pos h]⟩
    · obtain ⟨q, hq, hmem⟩ := ih
      exact ⟨q, hq, by simp [getOrCreateUpdate, if_neg h, hmem]⟩

/-- C9: when the mark-read command performs a genuine transition
(`readCount` was `0`) and afterwards every non-hidden function of the
file's record is read while at least one non-hidden function exists, a
`fileRead` progress action for the file is recorded in the entry for
`today` — the check ranges only over non-hidden functions, so hidden
unread functions cannot block it. -/
theorem markReadCmd_records_fileRead
    (st : AuditTrackerState) (today : String) (func : FunctionState) (f : ScopedFile)
    (hnew : func.readCount ≤ 0)
    (hfile : getFile (setRead st func.id true) func.filePath = some f)
    (hne : (f.functions.filter (fun g => !g.isHidden)).length > 0)
    (hall : (f.functions.filter (fun g => !g.isHidden)).all (fun g => g.readCount > 0) = true) :
    ∃ e ∈ (markReadCmd st today func).progressHistory,
      e.date = today ∧
        DailyProgressAction.mk ActionType.fileRead
          (relativePathOr (some f) func.filePath) none none ∈ e.actions := by
  have hwas : decide (func.readCount > 0) = false := by
    simp only [decide_eq_false_iff_not, not_lt]
    exact hnew
  have hcond : (decide ((f.functions.filter (fun g => !g.isHidden)).length > 0) &&
      (f.functions.filter (fun g => !g.isHidden)).all (fun g => decide (g.readCount > 0))) = true := by
    rw [Bool.and_eq_true]
    exact ⟨by simpa using hne, hall⟩
  unfold markReadCmd
  simp only [hwas, hfile, Bool.not_false, eq_self_iff_true, if_true]
  rw [if_pos hcond]
  unfold recordFileRead
  obtain ⟨q, hq, hmem⟩ := getOrCreateUpdate_mem
    (recordFunctionRead (setRead st func.id true) today
      (relativePathOr (some f) func.filePath) func.name
      (func.endLine - func.startLine + 1)).progressHistory today
    (fun p =>
      { p with
        filesRead := p.filesRead + 1
        actions := p.actions ++
          [{ type := .fileRead, filePath := relativePathOr (some f) func.filePath,
             functionName := none, lineCount := none }] })
  refine ⟨_, hmem, hq, ?_⟩
  simp

/-- Witness for C9, instantiating the spec's example: a file with three
non-hidden functions (two already read) and one hidden unread function;
marking the remaining visible function read records a `fileRead` action
even though the hidden function stays unread. -/
theorem markReadCmd_records_fileRead_witness :
    ∃ e ∈ (markReadCmd
      (AuditTrackerState.mk (.fin 1) ["/repo"] [] DEFAULT_FUNCTION_FILTERS
        [("/repo/a.sol", ScopedFile.mk "/repo/a.sol" "a.sol"
          [FunctionState.mk "/repo/a.sol#f1#1" "f1" "/repo/a.sol" 1 2 1 false false false false,
           FunctionState.mk "/repo/a.sol#f2#3" "f2" "/repo/a.sol" 3 4 1 false false false false,
           FunctionState.mk "/repo/a.sol#f3#5" "f3" "/repo/a.sol" 5 6 0 false false false false,
           FunctionState.mk "/repo/a.sol#h#7" "h" "/repo/a.sol" 7 8 0 false false false true])]
        [] (.fin 0))
      "2026-10-12"
      (FunctionState.mk "/repo/a.sol#f3#5" "f3" "/repo/a.sol" 5 6 0 false false false false)).progressHistory,
      e.date = "2026-10-12" ∧
        DailyProgressAction.mk ActionType.fileRead
          (relativePathOr (some (ScopedFile.mk "/repo/a.sol" "a.sol"
            [FunctionState.mk "/repo/a.sol#f1#1" "f1" "/repo/a.sol" 1 2 1 false false false false,
             FunctionState.mk "/repo/a.sol#f2#3" "f2" "/repo/a.sol" 3 4 1 false false false false,
             FunctionState.mk "/repo/a.sol#f3#5" "f3" "/repo/a.sol" 5 6 1 false false false false,
             FunctionState.mk "/repo/a.sol#h#7" "h" "/repo/a.sol" 7 8 0 false false false true]))
            "/repo/a.sol") none none ∈ e.actions :=
  markReadCmd_records_fileRead _ "2026-10-12" _
    (ScopedFile.mk "/repo/a.sol" "a.sol"
      [FunctionState.mk "/repo/a.sol#f1#1" "f1" "/repo/a.sol" 1 2 1 false false false false,
       FunctionState.mk "/repo/a.sol#f2#3" "f2" "/repo/a.sol" 3 4 1 false false false false,
       FunctionState.mk "/repo/a.sol#f3#5" "f3" "/repo/a.sol" 5 6 1 false false false false,
       FunctionState.mk "/repo/a.sol#h#7" "h" "/repo/a.sol" 7 8 0 false false false true])
    (by decide) (by decide) (by decide) (by decide)

/-! ## Frame property of the per-function flag mutators (claim C10) -/

theorem updateFnInList_not_found (fns : List FunctionState) (functionId : String)
    (upd : FunctionState → FunctionState) (h : ∀ f ∈ fns, f.id ≠ functionId) :
    updateFnInList fns functionId upd = (fns, false) := by
  induction fns with
  | nil => rfl
  | cons f rest ih =>
    have hf : f.id ≠ functionId := h f (by simp)
    simp only [updateFnInList, if_neg hf]
    rw [ih (fun g hg => h g (by simp [hg]))]

theorem updateFirstFn_not_found (files : List (String × ScopedFile)) (functionId : String)
    (upd : FunctionState → FunctionState)
    (h : ∀ kv ∈ files, ∀ f ∈ kv.2.functions, f.id ≠ functionId) :
    updateFirstFn files functionId upd = files := by
  induction files with
  | nil => rfl
  | cons kv rest ih =>
    obtain ⟨k, sf⟩ := kv
    have hsf := updateFnInList_not_found sf.functions functionId upd
      (h (k, sf) (by simp))
    simp only [updateFirstFn, hsf]
    rw [ih (fun kv' hkv' => h kv' (by simp [hkv']))]
    simp

theorem updateFnInList_found (fns : List FunctionState) (functionId : String)
    (upd : FunctionState → FunctionState) (h : ∃ f ∈ fns, f.id = functionId) :
    ∃ pre f post, fns = pre ++ f :: post ∧ (∀ g ∈ pre, g.id ≠ functionId) ∧
      f.id = functionId ∧
      updateFnInList fns functionId upd = (pre ++ upd f :: post, true) := by
  induction fns with
  | nil => simp at h
  | cons f rest ih =>
    by_cases hf : f.id = functionId
    · exact ⟨[], f, rest, rfl, by simp, hf, by simp [updateFnInList, if_pos hf]⟩
    · have h' : ∃ g ∈ rest, g.id = functionId := by
        obtain ⟨g, hg, hid⟩ := h
        rcases List.mem_cons.mp hg with rfl | hg'
        · exact absurd hid hf
        · exact ⟨g, hg', hid⟩
      obtain ⟨pre, g, post, heq, hpre, hid, hupd⟩ := ih h'
      refine ⟨f :: pre, g, post, by simp [heq], ?_, hid, ?_⟩
      · intro g' hg'
        rcases List.mem_cons.mp hg' with rfl | hg''
        · exact hf
        · exact hpre g' hg''
      · simp only [updateFnInList, if_neg hf, hupd]
        simp

theorem updateFirstFn_found (files : List (String × ScopedFile)) (functionId : String)
    (upd : FunctionState → FunctionState)
    (h : ∃ kv ∈ files, ∃ f ∈ kv.2.functions, f.id = functionId) :
    ∃ preF k sf postF fpre f fpost,
      files = preF ++ (k, sf) :: postF ∧
      (∀ kv ∈ preF, ∀ g ∈ kv.2.functions, g.id ≠ functionId) ∧
      sf.functions = fpre ++ f :: fpost ∧
      (∀ g ∈ fpre, g.id ≠ functionId) ∧
      f.id = functionId ∧
      updateFirstFn files functionId upd =
        preF ++ (k, { sf with functions := fpre ++ upd f :: fpost }) :: postF := by
  induction files with
  | nil => simp at h
  | cons kv rest ih =>
    obtain ⟨k, sf⟩ := kv
    by_cases hin : ∃ f ∈ sf.functions, f.id = functionId
    · obtain ⟨fpre, f, fpost, heq, hfpre, hid, hupd⟩ :=
        updateFnInList_found sf.functions functionId upd hin
      refine ⟨[], k, sf, rest, fpre, f, fpost, by simp, by simp, heq, hfpre, hid, ?_⟩
      simp only [updateFirstFn, hupd, List.nil_append]
      simp
    · have hnone : ∀ f ∈ sf.functions, f.id ≠ functionId := by
        intro g hg hid
        exact hin ⟨g, hg, hid⟩
      have h' : ∃ kv ∈ rest, ∃ f ∈ kv.2.functions, f.id = functionId := by
        obtain ⟨kv', hkv', hf⟩ := h
        rcases List.mem_cons.mp hkv' with rfl | hkv''
        · obtain ⟨g, hg, hid⟩ := hf
          exact absurd hid (hnone g hg)
        · exact ⟨kv', hkv'', hf⟩
      obtain ⟨preF, k', sf', postF, fpre, f, fpost, heq, hpreF, hfeq, hfpre, hid, hupd⟩ :=
        ih h'
      refine ⟨(k, sf) :: preF, k', sf', postF, fpre, f, fpost, by simp [heq], ?_,
        hfeq, hfpre, hid, ?_⟩
      · intro kv' hkv'
        rcases List.mem_cons.mp hkv' with rfl | hkv''
        · exact hnone
        · exact hpreF kv' hkv''
      · have hnf := updateFnInList_not_found sf.functions functionId upd hnone
        simp only [updateFirstFn, hnf, hupd, List.cons_append]
        simp

theorem frameUpdate_of_found (st : AuditTrackerState) (functionId : String)
    (upd : FunctionState → FunctionState)
    (h : ∃ kv ∈ st.files, ∃ f ∈ kv.2.functions, f.id = functionId) :
    FrameUpdate st { st with files := updateFirstFn st.files functionId upd }
      functionId upd := by
  obtain ⟨preF, k, sf, postF, fpre, f, fpost, heq, hpreF, hfeq, hfpre, hid, hupd⟩ :=
    updateFirstFn_found st.files functionId upd h
  exact ⟨rfl, rfl, rfl, rfl, rfl, rfl,
    preF, k, sf, postF, fpre, f, fpost, heq, hpreF, hfeq, hfpre, hid, hupd⟩

/-- C10: each of the five per-function flag mutators is a silent no-op —
the whole state unchanged — when no tracked function has the given id;
when one exists, the mutator rewrites exactly the first matching record,
applying its single-field update (`setReadUpd` and friends), and leaves
every other field of that record, every other record, every other file
and every non-`files` state component unchanged. -/
theorem flag_mutators_frame (st : AuditTrackerState) (functionId : String) (b : Bool) :
    ((∀ kv ∈ st.files, ∀ f ∈ kv.2.functions, f.id ≠ functionId) →
      setRead st functionId b = st ∧
      setReviewed st functionId b = st ∧
      setEntrypoint st functionId b = st ∧
      setAdmin st functionId b = st ∧
      setHidden st functionId b = st) ∧
    ((∃ kv ∈ st.files, ∃ f ∈ kv.2.functions, f.id = functionId) →
      FrameUpdate st (setRead st functionId b) functionId (setReadUpd b) ∧
      FrameUpdate st (setReviewed st functionId b) functionId (setReviewedUpd b) ∧
      FrameUpdate st (setEntrypoint st functionId b) functionId (setEntrypointUpd b) ∧
      FrameUpdate st (setAdmin st functionId b) functionId (setAdminUpd b) ∧
      FrameUpdate st (setHidden st functionId b) functionId (setHiddenUpd b)) := by
  constructor
  · intro h
    have hR := updateFirstFn_not_found st.files functionId (setReadUpd b) h
    have hV := updateFirstFn_not_found st.files functionId (setReviewedUpd b) h
    have hE := updateFirstFn_not_found st.files functionId (setEntrypointUpd b) h
    have hA := updateFirstFn_not_found st.files functionId (setAdminUpd b) h
    have hH := updateFirstFn_not_found st.files functionId (setHiddenUpd b) h
    refine ⟨?_, ?_, ?_, ?_, ?_⟩ <;>
      simp only [setRead, setReviewed, setEntrypoint, setAdmin, setHidden, hR, hV, hE, hA, hH]
  · intro h
    exact ⟨frameUpdate_of_found st functionId (setReadUpd b) h,
      frameUpdate_of_found st functionId (setReviewedUpd b) h,
      frameUpdate_of_found st functionId (setEntrypointUpd b) h,
      frameUpdate_of_found st functionId (setAdminUpd b) h,
      frameUpdate_of_found st functionId (setHiddenUpd b) h⟩

/-- Witness for C10: on a concrete two-file state, mutating an unknown id
leaves the state unchanged, and mutating a tracked id produces the framed
single-record update. -/
theorem flag_mutators_frame_witness :
    (setRead mutatorWitnessState "nope" true = mutatorWitnessState ∧
      setReviewed mutatorWitnessState "nope" true = mutatorWitnessState ∧
      setEntrypoint mutatorWitnessState "nope" true = mutatorWitnessState ∧
      setAdmin mutatorWitnessState "nope" true = mutatorWitnessState ∧
      setHidden mutatorWitnessState "nope" true = mutatorWitnessState) ∧
    FrameUpdate mutatorWitnessState (setRead mutatorWitnessState "/repo/b.sol#g#4" true)
      "/repo/b.sol#g#4" (setReadUpd true) :=
  ⟨(flag_mutators_frame mutatorWitnessState "nope" true).1 (by decide),
   ((flag_mutators_frame mutatorWitnessState "/repo/b.sol#g#4" true).2 (by decide)).1⟩

/-! ## Normalization idempotence toolkit (claims C3 and C5) -/

theorem mem_jsUniqueAux [DecidableEq α] (seen l : List α) (a : α) :
    a ∈ jsUniqueAux seen l ↔ a ∈ l ∧ a ∉ seen := by
  induction l generalizing seen with
  | nil => simp [jsUniqueAux]
  | cons x xs ih =>
    by_cases hx : x ∈ seen
    · rw [show jsUniqueAux seen (x :: xs) = jsUniqueAux seen xs from by
        simp [jsUniqueAux, hx], ih]
      constructor
      · rintro ⟨h1, h2⟩
        exact ⟨List.mem_cons_of_mem x h1, h2⟩
      · rintro ⟨h1, h2⟩
        rcases List.mem_cons.mp h1 with rfl | h1'
        · exact absurd hx h2
        · exact ⟨h1', h2⟩
    · rw [show jsUniqueAux seen (x :: xs) = x :: jsUniqueAux (x :: seen) xs from by
        simp [jsUniqueAux, hx]]
      simp only [List.mem_cons, ih]
      constructor
      · rintro (rfl | ⟨h1, h2⟩)
        · exact ⟨Or.inl rfl, hx⟩
        · exact ⟨Or.inr h1, fun hs => h2 (Or.inr hs)⟩
      · rintro ⟨h1, h2⟩
        rcases h1 with rfl | h1'
        · exact Or.inl rfl
        · by_cases hax : a = x
          · exact Or.inl hax
          · exact Or.inr ⟨h1', fun hs => by
              rcases hs with h | h
              · exact hax h
              · exact h2 h⟩

theorem mem_of_mem_jsUnique [DecidableEq α] {l : List α} {a : α}
    (h : a ∈ jsUnique l) : a ∈ l :=
  ((mem_jsUniqueAux [] l a).mp h).1

theorem jsUniqueAux_nodup [DecidableEq α] (seen l : List α) :
    (jsUniqueAux seen l).Nodup := by
  induction l generalizing seen with
  | nil => simp [jsUniqueAux]
  | cons x xs ih =>
    by_cases hx : x ∈ seen
    · simpa [jsUniqueAux, hx] using ih seen
    · rw [show jsUniqueAux seen (x :: xs) = x :: jsUniqueAux (x :: seen) xs from by
        simp [jsUniqueAux, hx]]
      refine List.Nodup.cons ?_ (ih (x :: seen))
      intro hmem
      exact ((mem_jsUniqueAux (x :: seen) xs x).mp hmem).2 (List.mem_cons_self x seen)

theorem jsUniqueAux_eq_self [DecidableEq α] (seen l : List α)
    (hn : l.Nodup) (hd : ∀ a ∈ l, a ∉ seen) : jsUniqueAux seen l = l := by
  induction l generalizing seen with
  | nil => rfl
  | cons x xs ih =>
    have hx : x ∉ seen := hd x (List.mem_cons_self x xs)
    rw [show jsUniqueAux seen (x :: xs) = x :: jsUniqueAux (x :: seen) xs from by
      simp [jsUniqueAux, hx]]
    congr 1
    refine ih (x :: seen) (List.Nodup.of_cons hn) ?_
    intro a ha hmem
    rcases List.mem_cons.mp hmem with rfl | hmem'
    · exact (List.nodup_cons.mp hn).1 ha
    · exact hd a (List.mem_cons_of_mem x ha) hmem'

theorem jsUnique_eq_self [DecidableEq α] {l : List α} (hn : l.Nodup) :
    jsUnique l = l :=
  jsUniqueAux_eq_self [] l hn (by simp)

theorem jsUnique_idem [DecidableEq α] (l : List α) :
    jsUnique (jsUnique l) = jsUnique l :=
  jsUnique_eq_self (jsUniqueAux_nodup [] l)

theorem mem_upsert (kvs : List (String × α)) (k : String) (v : α)
    (kv' : String × α) (h : kv' ∈ upsert kvs k v) : kv' ∈ kvs ∨ kv' = (k, v) := by
  induction kvs with
  | nil => simpa [upsert] using h
  | cons kv rest ih =>
    by_cases hk : kv.1 = k
    · obtain ⟨k0, v0⟩ := kv
      simp only [upsert, if_pos hk] at h
      rcases List.mem_cons.mp h with rfl | h'
      · exact Or.inr rfl
      · exact Or.inl (List.mem_cons_of_mem _ h')
    · obtain ⟨k0, v0⟩ := kv
      simp only [upsert, if_neg hk] at h
      rcases List.mem_cons.mp h with rfl | h'
      · exact Or.inl (List.mem_cons_self _ _)
      · rcases ih h' with h'' | h''
        · exact Or.inl (List.mem_cons_of_mem _ h'')
        · exact Or.inr h''

theorem upsert_fresh (kvs : List (String × α)) (k : String) (v : α)
    (h : k ∉ kvs.map Prod.fst) : upsert kvs k v = kvs ++ [(k, v)] := by
  induction kvs with
  | nil => rfl
  | cons kv rest ih =>
    obtain ⟨k0, v0⟩ := kv
    have hk : k0 ≠ k := by
      intro hk
      exact h (by simp [hk])
    simp only [upsert, if_neg hk, List.cons_append]
    rw [ih (fun hm => h (by simp [hm]))]

theorem upsert_keys (kvs : List (String × α)) (k : String) (v : α) :
    (upsert kvs k v).map Prod.fst =
      if k ∈ kvs.map Prod.fst then kvs.map Prod.fst
      else kvs.map Prod.fst ++ [k] := by
  induction kvs with
  | nil => simp [upsert]
  | cons kv rest ih =>
    obtain ⟨k0, v0⟩ := kv
    by_cases hk : k0 = k
    · subst hk
      simp [upsert]
    · simp only [upsert, if_neg hk, List.map_cons, ih]
      by_cases hm : k ∈ rest.map Prod.fst
      · rw [if_pos hm, if_pos (by simp [hm])]
      · rw [if_neg hm, if_neg (by simp [hm, Ne.symm hk])]
        simp

theorem upsert_keys_nodup (kvs : List (String × α)) (k : String) (v : α)
    (h : (kvs.map Prod.fst).Nodup) : ((upsert kvs k v).map Prod.fst).Nodup := by
  rw [upsert_keys]
  by_cases hm : k ∈ kvs.map Prod.fst
  · rwa [if_pos hm]
  · rw [if_neg hm]
    refine List.Nodup.append h (List.nodup_singleton k) ?_
    intro a ha hb
    rw [List.mem_singleton] at hb
    subst hb
    exact hm ha

/-- The `files` fold of `normalizeState` preserves any property of the
accumulator entries that holds for every normalized file. -/
theorem normFiles_fold_inv (P : String × ScopedFile → Prop)
    (entries : List (String × JVal)) (acc : List (String × ScopedFile))
    (hacc : ∀ kv ∈ acc, P kv) (hstep : ∀ k x, P (k, normFile k x)) :
    ∀ kv ∈ entries.foldl
      (fun acc kv =>
        if isObjLike kv.2 then upsert acc kv.1 (normFile kv.1 kv.2) else acc)
      acc, P kv := by
  induction entries generalizing acc with
  | nil => exact hacc
  | cons e rest ih =>
    simp only [List.foldl_cons]
    by_cases he : isObjLike e.2
    · rw [if_pos he]
      refine ih _ ?_
      intro kv hkv
      rcases mem_upsert acc e.1 (normFile e.1 e.2) kv hkv with h | h
      · exact hacc kv h
      · rw [h]
        exact hstep e.1 e.2
    · rw [if_neg he]
      exact ih acc hacc

/-- The `files` fold keeps the keys duplicate-free. -/
theorem normFiles_fold_keys_nodup (entries : List (String × JVal))
    (acc : List (String × ScopedFile)) (hacc : (acc.map Prod.fst).Nodup) :
    ((entries.foldl
      (fun acc kv =>
        if isObjLike kv.2 then upsert acc kv.1 (normFile kv.1 kv.2) else acc)
      acc).map Prod.fst).Nodup := by
  induction entries generalizing acc with
  | nil => exact hacc
  | cons e rest ih =>
    simp only [List.foldl_cons]
    by_cases he : isObjLike e.2
    · rw [if_pos he]
      exact ih _ (upsert_keys_nodup acc e.1 (normFile e.1 e.2) hacc)
    · rw [if_neg he]
      exact ih acc hacc

theorem normFn_normal (fp : String) (x : JVal) : NormalFn fp (normFn fp x) := by
  refine ⟨rfl, ?_, ?_, ?_⟩
  · exact le_max_right _ _
  · show 0 < (normFn fp x).id.length
    unfold normFn
    cases hs : asString (getField x "id") with
    | none =>
      have h1 : 0 < ("#" : String).length := by decide
      simp [String.length_append, h1]
    | some s =>
      by_cases h : 0 < s.length
      · simp [h]
      · have h1 : 0 < ("#" : String).length := by decide
        simp [h, String.length_append, h1]
  · show (normFn fp x).readCount = 0 ∨ (normFn fp x).readCount = 1
    unfold normFn
    cases hn : asNumber (getField x "readCount") with
    | none => simp
    | some n =>
      cases n with
      | fin v =>
        by_cases h : v > 0
        · simp [h]
        · simp [h]
      | nan => simp
      | inf => simp
      | neginf => simp

theorem normFn_roundtrip (fp : String) (f : FunctionState) (h : NormalFn fp f) :
    normFn fp (encodeFn f) = f := by
  obtain ⟨hfp, hle, hid, hrc⟩ := h
  obtain ⟨id, name, filePath, startLine, endLine, readCount, irev, ient, iadm, ihid⟩ := f
  simp only at hfp hle hid hrc
  subst hfp
  unfold normFn encodeFn
  simp [getField, List.lookup, asFiniteNumber, asString, asNumber, truthy,
    hid, Nat.pos_iff_ne_zero.mp hid, max_eq_left hle]
  rcases hrc with h0 | h1
  · simp [h0]
  · simp [h1]

theorem normFile_normal (fp : String) (x : JVal) : NormalFile fp (normFile fp x) := by
  refine ⟨rfl, ?_, ?_⟩
  · show (normFile fp x).relativePath = "" → _
    unfold normFile
    cases hs : asString (getField x "relativePath") with
    | none => simp
    | some s =>
      by_cases h : 0 < s.length
      · simp only [h, if_true]
        intro hempty
        subst hempty
        simp at h
      · simp [h]
  · show ∀ f ∈ (normFile fp x).functions, NormalFn fp f
    unfold normFile
    cases hfn : asArray (getField x "functions") with
    | none => simp
    | some xs =>
      simp only [List.mem_map]
      rintro f ⟨y, hy, rfl⟩
      exact normFn_normal fp y

theorem normFile_roundtrip (fp : String) (sf : ScopedFile) (h : NormalFile fp sf) :
    normFile fp (encodeFile sf) = sf := by
  obtain ⟨hfp, hrel, hfns⟩ := h
  obtain ⟨filePath, relativePath, functions⟩ := sf
  simp only at hfp hrel hfns
  subst hfp
  unfold normFile encodeFile
  simp only [getField, List.lookup]
  have hfilter : (functions.map encodeFn).filter isObjLike = functions.map encodeFn := by
    rw [List.filter_eq_self]
    rintro x hx
    obtain ⟨f, hf, rfl⟩ := List.mem_map.mp hx
    rfl
  simp only [asString, asArray]
  have hmaps : List.map (normFn filePath) (List.filter isObjLike (List.map encodeFn functions)) =
      functions := by
    rw [hfilter, List.map_map]
    have h1 : List.map (normFn filePath ∘ encodeFn) functions = List.map id functions :=
      List.map_congr_left (fun f hf => normFn_roundtrip filePath f (hfns f hf))
    rw [h1, List.map_id]
  by_cases h : 0 < relativePath.length
  · simp [h, hmaps]
  · have hempty : relativePath = "" := by
      cases relativePath with
      | mk data =>
        cases data with
        | nil => rfl
        | cons c cs => simp [String.length] at h
    simp [hempty, hmaps, hrel hempty]

theorem strs_filterMap_map (l : List String) :
    (l.map JVal.str).filterMap (fun x => asString (some x)) = l := by
  induction l with
  | nil => rfl
  | cons s rest ih =>
    show s :: (rest.map JVal.str).filterMap (fun x => asString (some x)) = s :: rest
    rw [ih]

theorem normPaths_normal (v : Option JVal) :
    jsUnique (normPaths v) = normPaths v ∧ ∀ s ∈ normPaths v, 0 < s.length := by
  constructor
  · exact jsUnique_idem _
  · intro s hs
    have hmem := mem_of_mem_jsUnique hs
    simpa using List.of_mem_filter hmem

theorem normPaths_roundtrip (l : List String) (hfix : jsUnique l = l)
    (hlen : ∀ s ∈ l, 0 < s.length) :
    normPaths (some (.arr (l.map .str))) = l := by
  unfold normPaths rawStrings
  simp only [asArray, Option.getD_some, strs_filterMap_map]
  rw [List.filter_eq_self.mpr (fun s hs => by simpa using hlen s hs)]
  exact hfix

theorem parseStatus_statusStr (s : FunctionStatus) : parseStatus (statusStr s) = some s := by
  cases s <;> rfl

theorem isFunctionStatusStr_statusStr (s : FunctionStatus) :
    isFunctionStatusStr (statusStr s) = true := by
  cases s <;> rfl

theorem filterMap_parseStatus_map (l : List FunctionStatus) :
    (l.map statusStr).filterMap parseStatus = l := by
  induction l with
  | nil => rfl
  | cons s rest ih => simp [parseStatus_statusStr, ih]

theorem map_statusStr_filterMap (strs : List String)
    (h : ∀ s ∈ strs, isFunctionStatusStr s = true) :
    (strs.filterMap parseStatus).map statusStr = strs := by
  induction strs with
  | nil => rfl
  | cons s rest ih =>
    have hs := h s (List.mem_cons_self s rest)
    have hrest := ih (fun s' hs' => h s' (List.mem_cons_of_mem s hs'))
    have : s = "unread" ∨ s = "read" ∨ s = "reviewed" := by
      simpa [isFunctionStatusStr, or_assoc] using hs
    rcases this with rfl | rfl | rfl <;>
      simp [parseStatus, statusStr, hrest]

theorem parseTag_tagStr (t : FunctionTag) : parseTag (tagStr t) = some t := by
  cases t <;> rfl

theorem isFunctionTagStr_tagStr (t : FunctionTag) :
    isFunctionTagStr (tagStr t) = true := by
  cases t <;> rfl

theorem filterMap_parseTag_map (l : List FunctionTag) :
    (l.map tagStr).filterMap parseTag = l := by
  induction l with
  | nil => rfl
  | cons t rest ih => simp [parseTag_tagStr, ih]

theorem map_tagStr_filterMap (strs : List String)
    (h : ∀ s ∈ strs, isFunctionTagStr s = true) :
    (strs.filterMap parseTag).map tagStr = strs := by
  induction strs with
  | nil => rfl
  | cons s rest ih =>
    have hs := h s (List.mem_cons_self s rest)
    have hrest := ih (fun s' hs' => h s' (List.mem_cons_of_mem s hs'))
    have : s = "entrypoint" ∨ s = "admin" := by
      simpa [isFunctionTagStr] using hs
    rcases this with rfl | rfl <;>
      simp [parseTag, tagStr, hrest]

theorem normStatuses_mapfix (v : Option JVal) :
    jsUnique ((normStatuses v).map statusStr) = (normStatuses v).map statusStr := by
  have valid : ∀ s ∈ jsUnique ((rawStrings (getFieldOpt v "statuses")).filter
      isFunctionStatusStr), isFunctionStatusStr s = true :=
    fun s hs => List.of_mem_filter (mem_of_mem_jsUnique hs)
  unfold normStatuses
  rw [map_statusStr_filterMap _ valid, jsUnique_idem]

theorem normTags_mapfix (v : Option JVal) :
    jsUnique ((normTags v).map tagStr) = (normTags v).map tagStr := by
  have valid : ∀ s ∈ jsUnique ((rawStrings (getFieldOpt v "tags")).filter
      isFunctionTagStr), isFunctionTagStr s = true :=
    fun s hs => List.of_mem_filter (mem_of_mem_jsUnique hs)
  unfold normTags
  rw [map_tagStr_filterMap _ valid, jsUnique_idem]

theorem normFilters_normal (v : Option JVal) :
    NormalStatuses (normFilters v).statuses ∧ NormalTags (normFilters v).tags := by
  refine ⟨?_, ?_⟩
  · show NormalStatuses (if (normStatuses v).length > 0 then normStatuses v
      else DEFAULT_FUNCTION_FILTERS.statuses)
    by_cases h : (normStatuses v).length > 0
    · rw [if_pos h]
      exact ⟨List.length_pos.mp h, normStatuses_mapfix v⟩
    · rw [if_neg h]
      exact ⟨by decide, by decide⟩
  · show NormalTags (normTags v)
    exact normTags_mapfix v

theorem normStatuses_of_arr (l : List FunctionStatus) (w : Option JVal)
    (hfix : jsUnique (l.map statusStr) = l.map statusStr)
    (hw : getFieldOpt w "statuses" =
      some (.arr (l.map (fun s => .str (statusStr s))))) :
    normStatuses w = l := by
  unfold normStatuses
  rw [hw]
  have hraw : rawStrings (some (.arr (l.map (fun s => .str (statusStr s))))) =
      l.map statusStr := by
    unfold rawStrings
    simp only [asArray, Option.getD_some]
    rw [show l.map (fun s => JVal.str (statusStr s)) = (l.map statusStr).map JVal.str from
      (List.map_map JVal.str statusStr l).symm]
    exact strs_filterMap_map _
  rw [hraw, List.filter_eq_self.mpr (fun s hs => by
    obtain ⟨t, ht, rfl⟩ := List.mem_map.mp hs
    exact isFunctionStatusStr_statusStr t), hfix, filterMap_parseStatus_map]

theorem normTags_of_arr (l : List FunctionTag) (w : Option JVal)
    (hfix : jsUnique (l.map tagStr) = l.map tagStr)
    (hw : getFieldOpt w "tags" =
      some (.arr (l.map (fun t => .str (tagStr t))))) :
    normTags w = l := by
  unfold normTags
  rw [hw]
  have hraw : rawStrings (some (.arr (l.map (fun t => .str (tagStr t))))) =
      l.map tagStr := by
    unfold rawStrings
    simp only [asArray, Option.getD_some]
    rw [show l.map (fun t => JVal.str (tagStr t)) = (l.map tagStr).map JVal.str from
      (List.map_map JVal.str tagStr l).symm]
    exact strs_filterMap_map _
  rw [hraw, List.filter_eq_self.mpr (fun s hs => by
    obtain ⟨t, ht, rfl⟩ := List.mem_map.mp hs
    exact isFunctionTagStr_tagStr t), hfix, filterMap_parseTag_map]

theorem normFilters_roundtrip (ff : FunctionFilters)
    (hs : NormalStatuses ff.statuses) (ht : NormalTags ff.tags) :
    normFilters (some (.obj
      [("statuses", .arr (ff.statuses.map (fun s => .str (statusStr s)))),
       ("tags", .arr (ff.tags.map (fun t => .str (tagStr t))))])) = ff := by
  have hS : normStatuses (some (.obj
      [("statuses", .arr (ff.statuses.map (fun s => .str (statusStr s)))),
       ("tags", .arr (ff.tags.map (fun t => .str (tagStr t))))])) = ff.statuses :=
    normStatuses_of_arr ff.statuses _ hs.2 rfl
  have hT : normTags (some (.obj
      [("statuses", .arr (ff.statuses.map (fun s => .str (statusStr s)))),
       ("tags", .arr (ff.tags.map (fun t => .str (tagStr t))))])) = ff.tags :=
    normTags_of_arr ff.tags _ ht rfl
  unfold normFilters
  rw [hS, hT, if_pos (List.length_pos.mpr hs.1)]

theorem normFiles_some (fv : JVal) :
    normFiles (some fv) =
      if isObjLike fv then
        (objEntries fv).foldl
          (fun acc kv =>
            if isObjLike kv.2 then upsert acc kv.1 (normFile kv.1 kv.2) else acc)
          []
      else [] := rfl

theorem normFiles_normal (v : Option JVal) :
    ((normFiles v).map Prod.fst).Nodup ∧ ∀ kv ∈ normFiles v, NormalFile kv.1 kv.2 := by
  cases v with
  | none => simp [normFiles]
  | some fv =>
    rw [normFiles_some]
    by_cases h : isObjLike fv
    · rw [if_pos h]
      constructor
      · exact normFiles_fold_keys_nodup (objEntries fv) [] (by simp)
      · exact normFiles_fold_inv (fun kv => NormalFile kv.1 kv.2) (objEntries fv) []
          (by simp) (fun k x => normFile_normal k x)
    · rw [if_neg h]
      simp

theorem normFiles_fold_encode (files : List (String × ScopedFile))
    (acc : List (String × ScopedFile))
    (hnodup : (files.map Prod.fst).Nodup)
    (hnorm : ∀ kv ∈ files, NormalFile kv.1 kv.2)
    (hdisj : ∀ k ∈ files.map Prod.fst, k ∉ acc.map Prod.fst) :
    (files.map (fun kv => (kv.1, encodeFile kv.2))).foldl
      (fun acc kv =>
        if isObjLike kv.2 then upsert acc kv.1 (normFile kv.1 kv.2) else acc)
      acc = acc ++ files := by
  induction files generalizing acc with
  | nil => simp
  | cons kv rest ih =>
    obtain ⟨k, sf⟩ := kv
    simp only [List.map_cons, List.foldl_cons]
    rw [show isObjLike (encodeFile sf) = true from rfl, if_pos rfl]
    have hround : normFile k (encodeFile sf) = sf :=
      normFile_roundtrip k sf (hnorm (k, sf) (List.mem_cons_self _ _))
    rw [hround, upsert_fresh acc k sf (hdisj k (by simp))]
    have hdisj' : ∀ k' ∈ rest.map Prod.fst, k' ∉ (acc ++ [(k, sf)]).map Prod.fst := by
      intro k' hk' hmem
      rw [List.map_append] at hmem
      rcases List.mem_append.mp hmem with hmem' | hmem'
      · exact hdisj k' (by simp [hk']) hmem'
      · simp only [List.map_cons, List.map_nil, List.mem_singleton] at hmem'
        have h' : (k :: List.map Prod.fst rest).Nodup := by simpa using hnodup
        rw [hmem'] at hk'
        exact (List.nodup_cons.mp h').1 hk'
    rw [ih (acc ++ [(k, sf)])
      (by simpa using List.Nodup.of_cons hnodup)
      (fun kv' hkv' => hnorm kv' (List.mem_cons_of_mem _ hkv'))
      hdisj']
    simp

theorem normFiles_roundtrip (files : List (String × ScopedFile))
    (hnodup : (files.map Prod.fst).Nodup)
    (hnorm : ∀ kv ∈ files, NormalFile kv.1 kv.2) :
    normFiles (some (.obj (files.map (fun kv => (kv.1, encodeFile kv.2))))) = files := by
  rw [normFiles_some,
    show isObjLike (JVal.obj (files.map (fun kv => (kv.1, encodeFile kv.2)))) = true from rfl,
    if_pos rfl]
  show (files.map (fun kv => (kv.1, encodeFile kv.2))).foldl _ [] = files
  rw [normFiles_fold_encode files [] hnodup hnorm (by simp)]
  simp

theorem parseActionType_actionTypeStr (t : ActionType) :
    parseActionType (actionTypeStr t) = some t := by
  cases t <;> rfl

theorem normAction_roundtrip (a : DailyProgressAction) :
    normAction a.type (encodeAction a) = a := by
  obtain ⟨ty, fp, fname, lc⟩ := a
  cases fname <;> cases lc <;>
    simp [normAction, encodeAction, getField, List.lookup, asString, asFiniteNumber]

theorem normActions_roundtrip (acts : List DailyProgressAction) :
    normActions (some (.arr (acts.map encodeAction))) = acts := by
  unfold normActions
  simp only [asArray]
  induction acts with
  | nil => rfl
  | cons a rest ih =>
    simp only [List.map_cons, List.filter_cons]
    rw [show isObjLike (encodeAction a) = true from rfl, if_pos rfl,
      List.filterMap_cons]
    have hhead : (match asString (getField (encodeAction a) "type") with
        | some s => Option.map (fun ty => normAction ty (encodeAction a)) (parseActionType s)
        | none => none) = some a := by
      rw [show asString (getField (encodeAction a) "type") =
        some (actionTypeStr a.type) from rfl]
      show Option.map (fun ty => normAction ty (encodeAction a))
        (parseActionType (actionTypeStr a.type)) = some a
      rw [parseActionType_actionTypeStr]
      show some (normAction a.type (encodeAction a)) = some a
      rw [normAction_roundtrip]
    rw [hhead]
    show a :: (((rest.map encodeAction).filter isObjLike).filterMap _) = a :: rest
    congr 1

theorem normEntry_roundtrip (e : DailyProgress) : normEntry (encodeEntry e) = e := by
  obtain ⟨date, fr, fv, lr, lv, sr, sv, acts⟩ := e
  unfold normEntry encodeEntry
  have hacts : normActions (some (.arr (acts.map encodeAction))) = acts :=
    normActions_roundtrip acts
  simp [getField, List.lookup, asString, asFiniteNumber, hacts]

theorem normHistory_roundtrip (hist : List DailyProgress) :
    normHistory (some (.arr (hist.map encodeEntry))) = hist := by
  unfold normHistory
  simp only [asArray]
  induction hist with
  | nil => rfl
  | cons e rest ih =>
    simp only [List.map_cons, List.filter_cons]
    rw [show isObjLike (encodeEntry e) = true from rfl, if_pos rfl]
    simp only [List.map_cons]
    rw [normEntry_roundtrip]
    congr 1

theorem normalizeState_normal (now : Int) (s : JVal) :
    NormalizedState (normalizeState now s) := by
  obtain ⟨hsp1, hsp2⟩ := normPaths_normal (getField s "scopePaths")
  obtain ⟨hep1, hep2⟩ := normPaths_normal (getField s "excludedPaths")
  obtain ⟨hff1, hff2⟩ := normFilters_normal (getField s "functionFilters")
  obtain ⟨hfs1, hfs2⟩ := normFiles_normal (getField s "files")
  exact ⟨hsp1, hsp2, hep1, hep2, hff1, hff2, hfs1, hfs2⟩

theorem normalizeState_encode (st : AuditTrackerState) (h : NormalizedState st)
    (now : Int) : normalizeState now (encodeState st) = st := by
  obtain ⟨h1, h2, h3, h4, h5, h6, h7, h8⟩ := h
  obtain ⟨v, sp, ep, ff, fs, ph, lm⟩ := st
  simp only at h1 h2 h3 h4 h5 h6 h7 h8
  unfold normalizeState
  simp only [AuditTrackerState.mk.injEq]
  refine ⟨rfl, ?_, ?_, ?_, ?_, ?_, rfl⟩
  · show normPaths (some (.arr (sp.map .str))) = sp
    exact normPaths_roundtrip sp h1 h2
  · show normPaths (some (.arr (ep.map .str))) = ep
    exact normPaths_roundtrip ep h3 h4
  · show normFilters (some (.obj
      [("statuses", .arr (ff.statuses.map (fun s => .str (statusStr s)))),
       ("tags", .arr (ff.tags.map (fun t => .str (tagStr t))))])) = ff
    exact normFilters_roundtrip ff h5 h6
  · show normFiles (some (.obj (fs.map (fun kv => (kv.1, encodeFile kv.2))))) = fs
    exact normFiles_roundtrip fs h7 h8
  · show normHistory (some (.arr (ph.map encodeEntry))) = ph
    exact normHistory_roundtrip ph

/-- C3: load-time normalization is idempotent.  For every runtime value
`s` (arbitrary, possibly malformed) the state produced by
`normalizeState` is a fixed point: presenting it again as a runtime value
(`encodeState`, which is exactly what serializing it and re-parsing it
produces) and normalizing once more — under any clock reading — returns
the same state, so a reload through `load()`'s normalization yields an
equal state. -/
theorem normalizeState_idempotent (s : JVal) (now now' : Int) :
    normalizeState now' (encodeState (normalizeState now s)) = normalizeState now s :=
  normalizeState_encode (normalizeState now s) (normalizeState_normal now s) now'

/-! ## Line-number and flag sanitization (claim C5) -/

/-- Counterexample to C5 as stated: load-time normalization does not
reset negative finite line numbers, so it is false that every produced
record has non-negative line numbers — on `negativeLinesRaw` the stored
record keeps `startLine = -5`. -/
theorem normalizeState_keeps_negative_lines :
    ((normalizeState 0 negativeLinesRaw).files.all
      (fun kv => kv.2.functions.all (fun g => decide (0 ≤ g.startLine)))) = false := by
  decide

/-- C5 (amended): every record produced by load-time normalization has
finite line numbers with `endLine ≥ startLine`; a missing or non-finite
(`NaN`/infinite/non-number) `startLine` is reset to `0`, a missing or
non-finite `endLine` is reset to the derived `startLine`, `endLine` is
clamped to at least `startLine`, and every missing boolean flag defaults
to `false` — but finite negative line numbers are preserved as is, so the
output need not be non-negative. -/
theorem normalizeState_line_sanitization :
    (∀ (now : Int) (s : JVal), ∀ kv ∈ (normalizeState now s).files,
      ∀ fn ∈ kv.2.functions, fn.startLine ≤ fn.endLine) ∧
    (∀ (fp : String) (raw : JVal), asFiniteNumber (getField raw "startLine") = none →
      (normFn fp raw).startLine = 0) ∧
    (∀ (fp : String) (raw : JVal), asFiniteNumber (getField raw "endLine") = none →
      (normFn fp raw).endLine = (normFn fp raw).startLine) ∧
    (∀ (fp : String) (raw : JVal),
      getField raw "isReviewed" = none → (normFn fp raw).isReviewed = false) ∧
    (∀ (fp : String) (raw : JVal),
      getField raw "isEntrypoint" = none → (normFn fp raw).isEntrypoint = false) ∧
    (∀ (fp : String) (raw : JVal),
      getField raw "isAdmin" = none → (normFn fp raw).isAdmin = false) ∧
    (∀ (fp : String) (raw : JVal),
      getField raw "isHidden" = none → (normFn fp raw).isHidden = false) := by
  refine ⟨?_, ?_, ?_, ?_, ?_, ?_, ?_⟩
  · intro now s kv hkv fn hfn
    have hnorm := (normFiles_normal (getField s "files")).2 kv hkv
    exact (hnorm.2.2 fn hfn).2.1
  · intro fp raw h
    unfold normFn
    simp [h]
  · intro fp raw h
    unfold normFn
    simp [h]
  · intro fp raw h
    unfold normFn
    simp [h, truthy]
  · intro fp raw h
    unfold normFn
    simp [h, truthy]
  · intro fp raw h
    unfold normFn
    simp [h, truthy]
  · intro fp raw h
    unfold normFn
    simp [h, truthy]

/-- Witness for the amended C5 at concrete inputs: the ordered-span part
on the record stored from `negativeLinesRaw`, and the reset/default parts
on an empty raw record. -/
theorem normalizeState_line_sanitization_witness :
    (FunctionState.mk "x" "f" "/repo/a.sol" (-5) (-3) 0 false false false false).startLine ≤
      (FunctionState.mk "x" "f" "/repo/a.sol" (-5) (-3) 0 false false false false).endLine ∧
    (normFn "/repo/a.sol" (.obj [])).startLine = 0 ∧
    (normFn "/repo/a.sol" (.obj [])).endLine = (normFn "/repo/a.sol" (.obj [])).startLine ∧
    (normFn "/repo/a.sol" (.obj [])).isReviewed = false ∧
    (normFn "/repo/a.sol" (.obj [])).isEntrypoint = false ∧
    (normFn "/repo/a.sol" (.obj [])).isAdmin = false ∧
    (normFn "/repo/a.sol" (.obj [])).isHidden = false :=
  ⟨normalizeState_line_sanitization.1 0 negativeLinesRaw
      ("/repo/a.sol", ScopedFile.mk "/repo/a.sol" "a.sol"
        [FunctionState.mk "x" "f" "/repo/a.sol" (-5) (-3) 0 false false false false])
      (by decide)
      (FunctionState.mk "x" "f" "/repo/a.sol" (-5) (-3) 0 false false false false)
      (by decide),
   normalizeState_line_sanitization.2.1 "/repo/a.sol" (.obj []) rfl,
   normalizeState_line_sanitization.2.2.1 "/repo/a.sol" (.obj []) rfl,
   normalizeState_line_sanitization.2.2.2.1 "/repo/a.sol" (.obj []) rfl,
   normalizeState_line_sanitization.2.2.2.2.1 "/repo/a.sol" (.obj []) rfl,
   normalizeState_line_sanitization.2.2.2.2.2.1 "/repo/a.sol" (.obj []) rfl,
   normalizeState_line_sanitization.2.2.2.2.2.2 "/repo/a.sol" (.obj []) rfl⟩

end AuditTracker
